import Mathlib

/-!
Shallow embedding of the clash-royale watcher (Python sources under `src/`):
`main.py` (deck FIFO model), `detection.py` (occupancy classification, card
identification, review flow, polling loop).  External library calls
(OpenCV image operations, screen capture) are modelled as explicit
parameters or rational-valued functions; Python exceptions are modelled
with `Except` / explicit error components.
-/

namespace ClashRoyale

/-! ## main.py : `Carta` and `DeckState` -/

/-- `Carta` from `main.py`: name, elixir cost, optional icon URL. -/
structure Carta where
  nome : String
  elixir : Int
  icon_url : Option String := none
deriving DecidableEq, Repr

/-- Default card used only as the (never-reached) default of `List.getD` /
`List.headD` when translating Python's checked list indexing / `popleft`. -/
def carta_default : Carta := { nome := "", elixir := 0 }

/-- `DeckState` from `main.py`: `_mao` (hand, a Python list) and `_fila`
(waiting queue, a deque appended at the tail and popped at the head). -/
structure DeckState where
  mao : List Carta
  fila : List Carta
deriving DecidableEq, Repr

/-- `DeckState.__init__`: requires exactly 8 cards, hand is the first 4,
queue the last 4; otherwise raises `ValueError` (modelled as `Except.error`
carrying the message). -/
def DeckState.init (cartas : List Carta) : Except String DeckState :=
  if cartas.length ≠ 8 then
    .error "Um deck valido precisa conter exatamente 8 cartas."
  else
    .ok { mao := cartas.take 4, fila := cartas.drop 4 }

/-- The two exceptions `DeckState.registrar_jogada` can raise. -/
inductive PlayErr where
  | indexError
  | runtimeError
deriving DecidableEq, Repr

/-- `DeckState.registrar_jogada` from `main.py` (lines 80-89).  The Python
method mutates `self`; we return the (possibly raised) exception together
with the post-state, so that "raise" cases keep the state they had.
Python checks `0 <= indice_mao < len(self._mao)` (the index is an `int`,
hence `Int` here), then `if not self._fila`, and only then mutates:
it appends the played card to the queue tail and pops the queue head into
the played hand position. -/
def registrar_jogada (st : DeckState) (indice_mao : Int) :
    Option PlayErr × DeckState :=
  if ¬ (0 ≤ indice_mao ∧ indice_mao < (st.mao.length : Int)) then
    (some .indexError, st)
  else if st.fila = [] then
    (some .runtimeError, st)
  else
    let carta_jogada := st.mao.getD indice_mao.toNat carta_default
    let fila2 := st.fila ++ [carta_jogada]
    (none, { mao := st.mao.set indice_mao.toNat (fila2.headD carta_default),
             fila := fila2.tail })

/-! ## detection.py : slot configuration and occupancy classification -/

/-- `SLOTS_CONFIG` from `detection.py` (lines 26-35): `(id, left, top)` of the
8 monitored slots. -/
def SLOTS_CONFIG : List (Nat × Nat × Nat) :=
  [(0, 731, 58), (1, 796, 58), (2, 861, 58), (3, 926, 58),
   (4, 991, 58), (5, 1056, 58), (6, 1121, 58), (7, 1186, 58)]

/-- A slot image: a `h × w` colour pixel buffer.  A pixel is its BGR triple
(OpenCV channel order); channel values are rationals so that the means the
classifier computes are exact. -/
structure SlotImage where
  h : Nat
  w : Nat
  px : Nat → Nat → ℚ × ℚ × ℚ

/-- Sum of `f` over the index rectangle `[r0, r1) × [c0, c1)` (the Python
slice `img[r0:r1, c0:c1]`). -/
def sumRegion (f : Nat → Nat → ℚ) (r0 r1 c0 c1 : Nat) : ℚ :=
  ((List.range (r1 - r0)).map (fun dy =>
    ((List.range (c1 - c0)).map (fun dx => f (r0 + dy) (c0 + dx))).sum)).sum

/-- Row range of the centered window of `is_background_red`
(`roi_size = 40`): Python `max(0, h//2 - 40)` and `min(h, h//2 + 40)`.
Truncated `Nat` subtraction coincides with Python's `max(0, ...)`. -/
def center_rows (img : SlotImage) : Nat × Nat :=
  (img.h / 2 - 40, min img.h (img.h / 2 + 40))

/-- Column range of the centered window, as in `center_rows`. -/
def center_cols (img : SlotImage) : Nat × Nat :=
  (img.w / 2 - 40, min img.w (img.w / 2 + 40))

/-- `center_roi.size`: the number of pixels of the centered window. -/
def center_size (img : SlotImage) : Nat :=
  ((center_rows img).2 - (center_rows img).1) *
    ((center_cols img).2 - (center_cols img).1)

/-- `np.mean(center_roi, axis=(0, 1))`: the channel-wise average colour of
the centered window, as a BGR triple. -/
def avg_center_color (img : SlotImage) : ℚ × ℚ × ℚ :=
  let r := center_rows img
  let c := center_cols img
  let n : ℚ := (center_size img : ℚ)
  (sumRegion (fun y x => (img.px y x).1) r.1 r.2 c.1 c.2 / n,
   sumRegion (fun y x => (img.px y x).2.1) r.1 r.2 c.1 c.2 / n,
   sumRegion (fun y x => (img.px y x).2.2) r.1 r.2 c.1 c.2 / n)

/-- The reference colours of `is_background_red` as BGR triples; they are
`hex_to_bgr` applied to the five hex constants
`["#92463a", "#843c32", "#9c4c3c", "#8c3c34", "#7c342c"]` of
`detection.py` line 340 (hex parsing evaluated once here). -/
def red_colors_bgr : List (ℚ × ℚ × ℚ) :=
  [(58, 70, 146), (50, 60, 132), (60, 76, 156), (52, 60, 140), (44, 52, 124)]

/-- Squared Euclidean distance between two BGR triples.  The source compares
`np.linalg.norm(avg - ref) < 25.0`; both sides being non-negative this is
equivalent to the squared comparison `distSq < 625` used below. -/
def distSq (a b : ℚ × ℚ × ℚ) : ℚ :=
  (a.1 - b.1) ^ 2 + (a.2.1 - b.2.1) ^ 2 + (a.2.2 - b.2.2) ^ 2

/-- `GameWatcher.is_background_red` (`detection.py` lines 334-362): `False`
when the centered window is empty, otherwise `True` iff the window's average
colour is within Euclidean tolerance 25.0 of some reference colour. -/
def is_background_red (img : SlotImage) : Bool :=
  if center_size img = 0 then false
  else red_colors_bgr.any (fun ref => decide (distSq (avg_center_color img) ref < 625))

/-- Saturation (the HSV `S` channel) of one BGR pixel, modelling OpenCV's
`cv2.cvtColor(..., cv2.COLOR_BGR2HSV)`: `V = max(B,G,R)`,
`S = 255 * (V - min(B,G,R)) / V` (0 when `V = 0`); computed exactly over
`ℚ` instead of rounding to `uint8`. -/
def pixel_saturation (p : ℚ × ℚ × ℚ) : ℚ :=
  let v := max p.1 (max p.2.1 p.2.2)
  let m := min p.1 (min p.2.1 p.2.2)
  if v = 0 then 0 else 255 * (v - m) / v

/-- `GameWatcher.get_slot_saturation` (`detection.py` lines 316-324):
`np.mean` of the saturation channel over the whole slot image. -/
def get_slot_saturation (img : SlotImage) : ℚ :=
  sumRegion (fun y x => pixel_saturation (img.px y x)) 0 img.h 0 img.w
    / ((img.h * img.w : Nat) : ℚ)

/-- `SATURATION_THRESHOLD` from `GameWatcher.run` (line 371). -/
def SATURATION_THRESHOLD : ℚ := 60

/-- The per-slot state decision of `GameWatcher.run` (lines 397-412):
red background wins (EMPTY), else saturation strictly above the threshold
means FULL, otherwise EMPTY.  States are the strings the source uses. -/
def determine_state (img : SlotImage) : String :=
  if is_background_red img then "EMPTY"
  else if SATURATION_THRESHOLD < get_slot_saturation img then "FULL"
  else "EMPTY"

/-! ## detection.py : `CardIdentifier.get_best_guess`

The image types are abstract (`α` raw images, `β` preprocessed ones).  The
candidate preprocessing of line 130-131 (`cv2.cvtColor` + blur, *outside*
any `try`) is a fallible function `pre : α → Option β`; the per-reference
`try` block of lines 139-157 (template preprocessing, resize,
`cv2.matchTemplate`, `cv2.minMaxLoc`) is a fallible scoring function
`sc : β → α → Option ℚ`, `none` modelling a raised-and-caught exception. -/

/-- One update of the best-so-far accumulator (lines 155-157): replace it
only when the new value is strictly greater. -/
def bgStep (acc : Option String × ℚ) (p : String × ℚ) : Option String × ℚ :=
  if acc.2 < p.2 then (some p.1, p.2) else acc

/-- The nested scan of `get_best_guess` over `templates_cache` (an
insertion-ordered dict, here an association list name ↦ templates),
starting from `best_match = None`, `best_score = 0.0`; a failing
comparison leaves the accumulator untouched (the `except: continue`). -/
def scanTemplates {α β : Type} (sc : β → α → Option ℚ) (tg : β)
    (templates_cache : List (String × List α)) : Option String × ℚ :=
  templates_cache.foldl
    (fun acc entry =>
      entry.2.foldl
        (fun a t =>
          match sc tg t with
          | none => a
          | some v => bgStep a (entry.1, v))
        acc)
    (none, 0)

/-- `CardIdentifier.get_best_guess` (`detection.py` lines 124-162).
`Except.error ()` models an uncaught Python exception: the empty-cache check
comes first, then the candidate preprocessing (whose failure is NOT caught),
then the nested scan in which per-reference failures are skipped. -/
def get_best_guess {α β : Type} (pre : α → Option β) (sc : β → α → Option ℚ)
    (templates_cache : List (String × List α)) (target_img : α) :
    Except Unit (Option String × ℚ) :=
  if templates_cache.isEmpty then .ok (none, 0)
  else
    match pre target_img with
    | none => .error ()
    | some target_gray => .ok (scanTemplates sc target_gray templates_cache)

/-- The successful comparison results of the scan, flattened in scan order
to (name, score) pairs; used to state what `get_best_guess` maximises. -/
def flatScores {α β : Type} (sc : β → α → Option ℚ) (tg : β)
    (templates_cache : List (String × List α)) : List (String × ℚ) :=
  (templates_cache.map (fun entry =>
    entry.2.filterMap (fun t => (sc tg t).map (fun v => (entry.1, v))))).flatten

/-! ## detection.py : EMPTY→FULL handling and the review flow -/

/-- Python `str.strip()`: drop whitespace from both ends. -/
def pyStrip (s : String) : String :=
  String.mk (((s.data.dropWhile Char.isWhitespace).reverse.dropWhile
    Char.isWhitespace).reverse)

/-- Helper of `pyTitle`: the boolean says whether the previous character was
alphabetic (Python `str.title()` uppercases a letter starting a run of
letters and lowercases the rest; other characters pass through). -/
def pyTitleAux : Bool → List Char → List Char
  | _, [] => []
  | prevAlpha, c :: cs =>
    if c.isAlpha then
      (if prevAlpha then c.toLower else c.toUpper) :: pyTitleAux true cs
    else c :: pyTitleAux false cs

/-- Python `str.title()` (ASCII letters). -/
def pyTitle (s : String) : String := String.mk (pyTitleAux false s.data)

/-- Python truthiness of `best_guess` (an `Optional[str]`): `None` and the
empty string are falsy. -/
def truthyName : Option String → Bool
  | none => false
  | some s => s ≠ ""

/-- The per-slot state the identification flow mutates: `slots_identity[i]`
and the user-template directory (append-only list of (name, image) of the
`cv2.imwrite` calls). -/
structure SlotReview (α : Type) where
  identity : Option String
  savedTemplates : List (String × α)
deriving DecidableEq, Repr

/-- `CONFIRMATION_THRESHOLD` from `GameWatcher.run` (line 455). -/
def CONFIRMATION_THRESHOLD : ℚ := 3 / 4

/-- The resolution of the review prompt (`detection.py` lines 473-485):
`user_input = input(...).strip()` (EOF modelled as the empty string),
`final_name = best_guess` overridden by `user_input.strip().title()` when
`user_input` is non-empty. -/
def resolveReviewName (best_guess : Option String) (rawInput : String) :
    Option String :=
  let user_input := pyStrip rawInput
  if user_input ≠ "" then some (pyTitle (pyStrip user_input)) else best_guess

/-- The low-confidence review branch (`detection.py` lines 463-511): resolve
the name; when it is truthy record it as the slot identity and persist the
candidate image as a new user template; otherwise change nothing. -/
def promptReview {α : Type} (best_guess : Option String) (slot_img : α)
    (rawInput : String) (st : SlotReview α) : SlotReview α :=
  match resolveReviewName best_guess rawInput with
  | some final_name =>
    if final_name ≠ "" then
      { identity := some final_name,
        savedTemplates := st.savedTemplates ++ [(final_name, slot_img)] }
    else st
  | none => st

/-- The whole post-edge identification handling (`detection.py` lines
453-511) given the best guess and score of the re-sampled slot: the returned
boolean says whether the operator prompt was invoked.  Auto-acceptance
(score at least `CONFIRMATION_THRESHOLD` and truthy guess) records the
guess and stores nothing. -/
def handle_new_card {α : Type} (best_guess : Option String) (best_score : ℚ)
    (slot_img : α) (rawInput : String) (st : SlotReview α) :
    Bool × SlotReview α :=
  if CONFIRMATION_THRESHOLD ≤ best_score ∧ truthyName best_guess then
    (false, { identity := best_guess, savedTemplates := st.savedTemplates })
  else
    (true, promptReview best_guess slot_img rawInput st)

/-- The three transition outcomes of one slot in one cycle of
`GameWatcher.run`. -/
inductive SlotAction where
  | identify
  | played
  | noop
deriving DecidableEq, Repr

/-- The transition dispatch of `GameWatcher.run` (lines 437 and 514) for
slot `i`: EMPTY→FULL enters the identification/review sub-flow, FULL→EMPTY
registers a played card, anything else does nothing.  The slot index `i` is
a parameter of the loop body but the source's branch conditions do not
inspect it. -/
def transition_action (i : Nat) (previous_state current_state : String) :
    SlotAction :=
  if previous_state = "EMPTY" ∧ current_state = "FULL" then .identify
  else if previous_state = "FULL" ∧ current_state = "EMPTY" then .played
  else .noop

/-! ## detection.py : the capture-failure ceiling of the polling loop -/

/-- `MAX_FAILURES` from `GameWatcher.run` (line 374). -/
def MAX_FAILURES : Nat := 5

/-- The capture-failure skeleton of the polling loop (lines 373-389) run on
a finite list of capture outcomes (`true` = `grab()` returned a frame):
a failure increments `consecutive_failures` and breaks once it reaches
`MAX_FAILURES`; a success resets it to 0.  Returns the final counter and
whether the loop broke because of consecutive capture failures. -/
def capture_loop : List Bool → Nat → Nat × Bool
  | [], consecutive_failures => (consecutive_failures, false)
  | ok :: rest, consecutive_failures =>
    if ok then capture_loop rest 0
    else if MAX_FAILURES ≤ consecutive_failures + 1 then
      (consecutive_failures + 1, true)
    else capture_loop rest (consecutive_failures + 1)

/-! ## Concrete instances used by witnesses and counterexamples -/

/-- A 4×4 slot image every pixel of which is the first reference colour
`#92463a` (BGR `(58, 70, 146)`) of `is_background_red`. -/
def redPixelImg : SlotImage := ⟨4, 4, fun _ _ => (58, 70, 146)⟩

/-- The 8-card deck of `main.py`'s `main()` (`deck_nomes`), with the
in-game elixir costs. -/
def deck8 : List Carta :=
  [{ nome := "Witch", elixir := 5 }, { nome := "Giant", elixir := 5 },
   { nome := "Fireball", elixir := 4 }, { nome := "Electro Wizard", elixir := 4 },
   { nome := "Hog Rider", elixir := 4 }, { nome := "Arrows", elixir := 3 },
   { nome := "Ice Golem", elixir := 2 }, { nome := "Tornado", elixir := 3 }]

/-- A deck state whose queue has only 2 entries (the claimed bootstrap
regime of queue length below 4). -/
def bootstrapState : DeckState :=
  { mao := deck8.take 4, fila := [{ nome := "Hog Rider", elixir := 4 },
                                  { nome := "Arrows", elixir := 3 }] }

/-- A deck state with a full hand and an empty queue. -/
def emptyQueueState : DeckState := { mao := deck8.take 4, fila := [] }

/-- Candidate preprocessing that always succeeds (raw images are `Nat`,
preprocessed ones `Unit`). -/
def preOkN : Nat → Option Unit := fun _ => some ()

/-- Candidate preprocessing that fails (a malformed candidate: `cv2.cvtColor`
raises on it). -/
def preFailN : Nat → Option Unit := fun _ => none

/-- Comparison scoring every reference at 1.0. -/
def scOneN : Unit → Nat → Option ℚ := fun _ _ => some 1

/-- Comparison scoring every reference at 0.0. -/
def scZeroN : Unit → Nat → Option ℚ := fun _ _ => some 0

/-- Comparison failing (raising) exactly on reference image `1`, scoring
every other reference at 1.0. -/
def scSkip1N : Unit → Nat → Option ℚ := fun _ t => if t = 1 then none else some 1

/-- A reference library with a single card and a single reference image. -/
def cacheA1 : List (String × List Nat) := [("A", [0])]

/-- A reference library with two cards scoring equally under `scOneN`. -/
def cacheAB : List (String × List Nat) := [("A", [0]), ("B", [1])]

/-- A reference library whose card `"A"` owns three reference images, the
middle of which `scSkip1N` fails on. -/
def cacheSkip : List (String × List Nat) := [("A", [0, 1, 2])]

/-- `cacheSkip` with the failing reference image removed. -/
def cacheNoSkip : List (String × List Nat) := [("A", [0, 2])]

/-! # Theorems -/

/-- C1: the occupancy decision reports FULL exactly when the slot image is
not background-red and its mean saturation strictly exceeds the fixed
threshold, and reports EMPTY in every other case; in particular an image
whose centered-window average colour is within the Euclidean tolerance
(squared tolerance 625 = 25²) of some empty-slot reference colour is
classified EMPTY regardless of its saturation. -/
theorem occupancy_full_iff_not_red_and_saturated (img : SlotImage) :
    (determine_state img = "FULL" ↔
      is_background_red img = false ∧
        SATURATION_THRESHOLD < get_slot_saturation img) ∧
    (determine_state img = "FULL" ∨ determine_state img = "EMPTY") ∧
    (∀ ref ∈ red_colors_bgr, center_size img ≠ 0 →
      distSq (avg_center_color img) ref < 625 →
      determine_state img = "EMPTY") := by
  have hred : ∀ ref ∈ red_colors_bgr, center_size img ≠ 0 →
      distSq (avg_center_color img) ref < 625 → is_background_red img = true := by
    intro ref href hsz hdist
    unfold is_background_red
    rw [if_neg hsz, List.any_eq_true]
    exact ⟨ref, href, by simpa using hdist⟩
  refine ⟨?_, ?_, ?_⟩
  · unfold determine_state
    constructor
    · intro h
      by_cases hb : is_background_red img
      · rw [if_pos hb] at h; exact absurd h (by decide)
      · rw [if_neg hb] at h
        by_cases hs : SATURATION_THRESHOLD < get_slot_saturation img
        · exact ⟨by simpa using hb, hs⟩
        · rw [if_neg hs] at h; exact absurd h (by decide)
    · rintro ⟨hb, hs⟩
      rw [if_neg (by simp [hb]), if_pos hs]
  · unfold determine_state
    by_cases hb : is_background_red img
    · right; rw [if_pos hb]
    · by_cases hs : SATURATION_THRESHOLD < get_slot_saturation img
      · left; rw [if_neg hb, if_pos hs]
      · right; rw [if_neg hb, if_neg hs]
  · intro ref href hsz hdist
    unfold determine_state
    rw [if_pos (hred ref href hsz hdist)]

/-- C1 witness: a concrete 4×4 image painted in the first reference colour
is classified EMPTY although its mean saturation exceeds the threshold. -/
theorem occupancy_red_priority_witness :
    determine_state redPixelImg = "EMPTY" ∧
      SATURATION_THRESHOLD < get_slot_saturation redPixelImg :=
  ⟨(occupancy_full_iff_not_red_and_saturated redPixelImg).2.2 (58, 70, 146)
      (by norm_num [red_colors_bgr])
      (by norm_num [center_size, center_rows, center_cols, redPixelImg])
      (by norm_num [distSq, avg_center_color, center_size, center_rows,
        center_cols, sumRegion, redPixelImg, List.range_succ]),
   by norm_num [SATURATION_THRESHOLD, get_slot_saturation, pixel_saturation,
     sumRegion, redPixelImg, List.range_succ]⟩

/-- `headD` of a non-empty list is unchanged by appending at the tail. -/
lemma headD_append_of_ne_nil {α : Type} (l : List α) (c d : α) (h : l ≠ []) :
    (l ++ [c]).headD d = l.headD d := by
  cases l with
  | nil => exact absurd rfl h
  | cons a t => rfl

/-- `tail` of appending at the tail of a non-empty list. -/
lemma tail_append_of_ne_nil {α : Type} (l : List α) (c : α) (h : l ≠ []) :
    (l ++ [c]).tail = l.tail ++ [c] := by
  cases l with
  | nil => exact absurd rfl h
  | cons a t => rfl

/-- One play preserves the lengths of both the hand and the queue
(errors leave the state untouched, a successful play sets one hand
position and rotates the queue). -/
lemma registrar_jogada_preserves_lengths (s : DeckState) (j : Int) :
    ((registrar_jogada s j).2.mao.length = s.mao.length ∧
      (registrar_jogada s j).2.fila.length = s.fila.length) := by
  unfold registrar_jogada
  by_cases h1 : ¬ (0 ≤ j ∧ j < (s.mao.length : Int))
  · rw [if_pos h1]; exact ⟨rfl, rfl⟩
  · rw [if_neg h1]
    by_cases h2 : s.fila = []
    · rw [if_pos h2]; exact ⟨rfl, rfl⟩
    · rw [if_neg h2]
      refine ⟨by simp, ?_⟩
      cases hf : s.fila with
      | nil => exact absurd hf h2
      | cons a t => simp [hf]

/-- Whenever the hand index is within the hand and the queue is non-empty
(whatever its length), a play succeeds: the queue head becomes the new
occupant of the played hand position and the played card is appended at
the queue tail. -/
lemma registrar_jogada_success (st : DeckState) (i : Int)
    (h0 : 0 ≤ i) (hi : i < (st.mao.length : Int)) (hne : st.fila ≠ []) :
    registrar_jogada st i =
      (none, { mao := st.mao.set i.toNat (st.fila.headD carta_default),
               fila := st.fila.tail ++ [st.mao.getD i.toNat carta_default] }) := by
  unfold registrar_jogada
  rw [if_neg (not_not_intro ⟨h0, hi⟩), if_neg hne]
  simp only [headD_append_of_ne_nil _ _ _ hne, tail_append_of_ne_nil _ _ hne]

/-- C10: `registrar_jogada` raises `IndexError` when the hand index falls
outside 0..3 (the hand has 4 positions) and `RuntimeError` when the queue is
empty; in both error cases the returned state is exactly the input state:
both precondition checks precede any mutation. -/
theorem registrar_jogada_error_cases (st : DeckState) (i : Int)
    (hm : st.mao.length = 4) :
    (¬ (0 ≤ i ∧ i < 4) → registrar_jogada st i = (some .indexError, st)) ∧
    (0 ≤ i → i < 4 → st.fila = [] →
      registrar_jogada st i = (some .runtimeError, st)) := by
  have hcast : (st.mao.length : Int) = 4 := by rw [hm]; rfl
  constructor
  · intro h
    unfold registrar_jogada
    rw [if_pos]
    rw [hcast]
    exact h
  · intro h0 h4 hq
    unfold registrar_jogada
    rw [if_neg, if_pos hq]
    rw [hcast]
    exact not_not_intro ⟨h0, h4⟩

/-- C10 witness: on a full hand with an empty queue, index −1 raises
`IndexError` and index 2 raises `RuntimeError`, leaving the state as it
was. -/
theorem registrar_jogada_error_witness :
    registrar_jogada emptyQueueState (-1) = (some .indexError, emptyQueueState) ∧
      registrar_jogada emptyQueueState 2 = (some .runtimeError, emptyQueueState) :=
  ⟨(registrar_jogada_error_cases emptyQueueState (-1) rfl).1 (by norm_num),
   (registrar_jogada_error_cases emptyQueueState 2 rfl).2 (by norm_num)
     (by norm_num) rfl⟩

/-- C2: in steady state (queue length 4), a play on a valid hand index
succeeds, the queue head becomes the new occupant of that hand position, the
played card is appended at the queue tail, and the queue length is 4 again;
moreover the queue length stays 4 across every sequence of observed plays. -/
theorem registrar_jogada_steady_state (st : DeckState) (i : Int)
    (hm : st.mao.length = 4) (hf : st.fila.length = 4)
    (h0 : 0 ≤ i) (h4 : i < 4) :
    registrar_jogada st i =
      (none, { mao := st.mao.set i.toNat (st.fila.headD carta_default),
               fila := st.fila.tail ++ [st.mao.getD i.toNat carta_default] }) ∧
    (registrar_jogada st i).2.fila.length = 4 ∧
    (∀ plays : List Int,
      ((plays.foldl (fun s j => (registrar_jogada s j).2) st).fila.length = 4)) := by
  have hne : st.fila ≠ [] := by
    intro h; rw [h] at hf; exact absurd hf (by decide)
  have hmain : registrar_jogada st i =
      (none, { mao := st.mao.set i.toNat (st.fila.headD carta_default),
               fila := st.fila.tail ++ [st.mao.getD i.toNat carta_default] }) := by
    unfold registrar_jogada
    rw [if_neg, if_neg hne]
    · simp only [headD_append_of_ne_nil _ _ _ hne, tail_append_of_ne_nil _ _ hne]
    · rw [hm]
      exact not_not_intro ⟨h0, by exact_mod_cast h4⟩
  refine ⟨hmain, ?_, ?_⟩
  · rw [hmain]
    simp [List.length_append, List.length_tail, hf]
  · intro plays
    have hinv : ∀ (ps : List Int) (s : DeckState), s.fila.length = 4 →
        ((ps.foldl (fun s j => (registrar_jogada s j).2) s).fila.length = 4) := by
      intro ps
      induction ps with
      | nil => intro s hs; exact hs
      | cons j t ih =>
        intro s hs
        rw [List.foldl_cons]
        exact ih _ (by rw [(registrar_jogada_preserves_lengths s j).2]; exact hs)
    exact hinv plays st hf

/-- C2 witness: the steady-state equation at the concrete `deck8` state with
hand index 1: the queue head moves to hand position 1 and the played card
joins the queue tail. -/
theorem registrar_jogada_steady_state_witness :
    registrar_jogada { mao := deck8.take 4, fila := deck8.drop 4 } 1 =
      (none,
       { mao := (deck8.take 4).set 1 ((deck8.drop 4).headD carta_default),
         fila := (deck8.drop 4).tail ++ [(deck8.take 4).getD 1 carta_default] }) :=
  (registrar_jogada_steady_state { mao := deck8.take 4, fila := deck8.drop 4 } 1
    rfl rfl (by norm_num) (by norm_num)).1

/-- C3 counterexample: the deck model of `main.py` is not created empty: the
startup deck of `main()` yields a queue that already holds 4 cards, and in
the claimed bootstrap regime (queue length below 4, here 2) a play is not a
pure tail-append: it succeeds and mutates the hand. -/
theorem deckstate_no_bootstrap_counterexample :
    DeckState.init deck8 =
      .ok { mao := deck8.take 4, fila := deck8.drop 4 } ∧
    (deck8.drop 4).length = 4 ∧
    (registrar_jogada bootstrapState 0).1 = none ∧
    (registrar_jogada bootstrapState 0).2.mao ≠ bootstrapState.mao := by
  refine ⟨rfl, rfl, rfl, ?_⟩
  decide

/-- C3 amended: the deck model is created at startup from exactly 8 cards —
any other count raises `ValueError` — with the first 4 as the hand and the
last 4 as the queue, so the queue starts at length 4 and the hand at 4
occupied positions; there is no append-only bootstrap phase: every play
whose hand index is within the hand and whose queue is non-empty (even one
shorter than 4) pops the queue head into the played hand slot and appends
the played card to the queue tail. -/
theorem deckstate_init_amended (cartas : List Carta) :
    (cartas.length ≠ 8 →
      DeckState.init cartas =
        .error "Um deck valido precisa conter exatamente 8 cartas.") ∧
    (cartas.length = 8 →
      DeckState.init cartas =
        .ok { mao := cartas.take 4, fila := cartas.drop 4 } ∧
      (cartas.take 4).length = 4 ∧ (cartas.drop 4).length = 4) ∧
    (∀ (st : DeckState) (i : Int), 0 ≤ i → i < (st.mao.length : Int) →
      st.fila ≠ [] →
      registrar_jogada st i =
        (none, { mao := st.mao.set i.toNat (st.fila.headD carta_default),
                 fila := st.fila.tail ++
                   [st.mao.getD i.toNat carta_default] })) := by
  refine ⟨?_, ?_, ?_⟩
  · intro h
    unfold DeckState.init
    rw [if_pos h]
  · intro h
    refine ⟨by unfold DeckState.init; rw [if_neg (not_not_intro h)], ?_, ?_⟩
    · simp [List.length_take, h]
    · simp [List.length_drop, h]
  · intro st i h0 hi hne
    exact registrar_jogada_success st i h0 hi hne

/-- C3 amended witness: the startup deck of `main()` produces hand = first
4 cards and queue = last 4 cards, both of length 4; and at the concrete
`bootstrapState` (queue of length 2, below 4) a play on hand index 0 still
pops the queue head into hand slot 0 and appends the played card. -/
theorem deckstate_init_amended_witness :
    (DeckState.init deck8 =
      .ok { mao := deck8.take 4, fila := deck8.drop 4 } ∧
    (deck8.take 4).length = 4 ∧ (deck8.drop 4).length = 4) ∧
    registrar_jogada bootstrapState 0 =
      (none,
       { mao := bootstrapState.mao.set 0 (bootstrapState.fila.headD carta_default),
         fila := bootstrapState.fila.tail ++
           [bootstrapState.mao.getD 0 carta_default] }) :=
  ⟨(deckstate_init_amended deck8).2.1 rfl,
   (deckstate_init_amended deck8).2.2 bootstrapState 0 (by norm_num)
     (by decide) (by decide)⟩

/-- C4 counterexample: slot 5 is a monitored non-hand slot (index in 4..7),
yet an EMPTY→FULL transition there enters the identification/review
sub-flow: the loop's transition dispatch never inspects the slot index. -/
theorem transition_identify_slot5_counterexample :
    transition_action 5 "EMPTY" "FULL" = SlotAction.identify ∧
      5 < SLOTS_CONFIG.length ∧ 4 ≤ 5 := by
  exact ⟨rfl, by decide, by decide⟩

/-- C4 amended: an EMPTY→FULL transition triggers the identification/review
sub-flow on every monitored slot, indices 0 through 7, hand slot or not. -/
theorem transition_identify_all_slots (i : Nat) (hi : i < SLOTS_CONFIG.length) :
    transition_action i "EMPTY" "FULL" = SlotAction.identify := rfl

/-- C4 amended witness: slot 7 (a non-hand slot) enters the identification
sub-flow on EMPTY→FULL. -/
theorem transition_identify_all_slots_witness :
    transition_action 7 "EMPTY" "FULL" = SlotAction.identify :=
  transition_identify_all_slots 7 (by decide)

/-- The loop breaks from counter `c` only if the remaining capture outcomes
start with `MAX_FAILURES - c` straight failures or contain `MAX_FAILURES`
straight failures somewhere. -/
lemma capture_loop_fatal_shape :
    ∀ (l : List Bool) (c : Nat), (capture_loop l c).2 = true →
      (List.replicate (MAX_FAILURES - c) false <+: l ∨
        List.replicate MAX_FAILURES false <:+: l) := by
  intro l
  induction l with
  | nil => intro c h; exact absurd h (by simp [capture_loop])
  | cons b t ih =>
    intro c h
    cases b with
    | true =>
      rw [show capture_loop (true :: t) c = capture_loop t 0 from rfl] at h
      rcases ih 0 h with hp | hi
      · right
        rcases hp with ⟨u, hu⟩
        exact ⟨[true], u, by simpa using hu⟩
      · right
        rcases hi with ⟨x, y, hxy⟩
        exact ⟨true :: x, y, by simpa using hxy⟩
    | false =>
      by_cases hc : MAX_FAILURES ≤ c + 1
      · left
        have h1 : MAX_FAILURES - c ≤ 1 := by omega
        rcases Nat.eq_zero_or_pos (MAX_FAILURES - c) with h0 | hpos
        · rw [h0]; exact ⟨false :: t, rfl⟩
        · have : MAX_FAILURES - c = 1 := by omega
          rw [this]
          exact ⟨t, rfl⟩
      · have hstep : capture_loop (false :: t) c = capture_loop t (c + 1) := by
          simp [capture_loop, hc]
        rw [hstep] at h
        rcases ih (c + 1) h with hp | hi
        · left
          have hc5 : c + 1 < MAX_FAILURES := by omega
          have hrep : List.replicate (MAX_FAILURES - c) false =
              false :: List.replicate (MAX_FAILURES - (c + 1)) false := by
            have : MAX_FAILURES - c = (MAX_FAILURES - (c + 1)) + 1 := by omega
            rw [this, List.replicate_succ]
          rcases hp with ⟨u, hu⟩
          exact ⟨u, by rw [hrep]; simpa using hu⟩
        · rcases hi with ⟨x, y, hxy⟩
          right
          exact ⟨false :: x, y, by simpa using hxy⟩

/-- From any counter below the ceiling, a block of enough straight failures
at the head makes the loop break. -/
lemma capture_loop_fatal_of_head_run :
    ∀ (n : Nat) (l : List Bool) (c : Nat), c < MAX_FAILURES →
      n = MAX_FAILURES - c → List.replicate n false <+: l →
      (capture_loop l c).2 = true := by
  intro n
  induction n with
  | zero => intro l c hc hn; omega
  | succ m ih =>
    intro l c hc hn hp
    rcases hp with ⟨u, hu⟩
    rw [List.replicate_succ] at hu
    cases l with
    | nil => exact absurd hu (by simp)
    | cons b t =>
      have hb : b = false := by
        have := congrArg (fun x => x.headD true) hu
        simpa using this.symm
      have ht : List.replicate m false <+: t := by
        refine ⟨u, ?_⟩
        have := congrArg List.tail hu
        simpa [hb] using this
      subst hb
      by_cases hend : MAX_FAILURES ≤ c + 1
      · simp [capture_loop, hend]
      · have : capture_loop (false :: t) c = capture_loop t (c + 1) := by
          simp [capture_loop, hend]
        rw [this]
        exact ih t (c + 1) (by omega) (by omega) ht

/-- A run of `MAX_FAILURES` straight failures anywhere makes the loop
break, from any counter below the ceiling. -/
lemma capture_loop_fatal_of_infix :
    ∀ (l : List Bool) (c : Nat), c < MAX_FAILURES →
      List.replicate MAX_FAILURES false <:+: l →
      (capture_loop l c).2 = true := by
  intro l
  induction l with
  | nil =>
    intro c hc hi
    rcases hi with ⟨x, y, hxy⟩
    have := congrArg List.length hxy
    simp [MAX_FAILURES] at this
  | cons b t ih =>
    intro c hc hi
    rcases hi with ⟨x, y, hxy⟩
    cases x with
    | nil =>
      have hp : List.replicate MAX_FAILURES false <+: b :: t := ⟨y, by simpa using hxy⟩
      have hp' : List.replicate (MAX_FAILURES - c) false <+: b :: t := by
        rcases hp with ⟨u, hu⟩
        have hsplit : List.replicate MAX_FAILURES false =
            List.replicate (MAX_FAILURES - c) false ++ List.replicate c false := by
          rw [← List.replicate_add]
          congr 1
          omega
        exact ⟨List.replicate c false ++ u, by rw [← hu, hsplit, List.append_assoc]⟩
      exact capture_loop_fatal_of_head_run (MAX_FAILURES - c) (b :: t) c hc rfl hp'
    | cons z x' =>
      have hz : z = b ∧ x' ++ List.replicate MAX_FAILURES false ++ y = t := by
        have h2 := hxy
        simp only [List.cons_append] at h2
        injection h2 with ha hb
        exact ⟨ha, hb⟩
      rcases hz with ⟨hz, ht⟩
      have hinf : List.replicate MAX_FAILURES false <:+: t := ⟨x', y, ht⟩
      cases b with
      | true =>
        rw [show capture_loop (true :: t) c = capture_loop t 0 from rfl]
        exact ih 0 (by simp [MAX_FAILURES]) hinf
      | false =>
        by_cases hend : MAX_FAILURES ≤ c + 1
        · simp [capture_loop, hend]
        · rw [show capture_loop (false :: t) c = capture_loop t (c + 1) by
            simp [capture_loop, hend]]
          exact ih (c + 1) (by omega) hinf

/-- C9: the retry ceiling is the fixed constant 5; a successful capture
resets the consecutive-failure counter to 0; and the loop breaks because of
capture failures exactly when the outcome sequence contains 5 consecutive
failures — never because of non-consecutive ones. -/
theorem capture_loop_failure_ceiling :
    MAX_FAILURES = 5 ∧
    (∀ (rest : List Bool) (c : Nat),
      capture_loop (true :: rest) c = capture_loop rest 0) ∧
    (∀ l : List Bool,
      (capture_loop l 0).2 = true ↔ List.replicate 5 false <:+: l) := by
  refine ⟨rfl, fun rest c => rfl, fun l => ⟨?_, ?_⟩⟩
  · intro h
    rcases capture_loop_fatal_shape l 0 h with hp | hi
    · rcases hp with ⟨u, hu⟩
      exact ⟨[], u, by simpa [MAX_FAILURES] using hu⟩
    · simpa [MAX_FAILURES] using hi
  · intro h
    exact capture_loop_fatal_of_infix l 0 (by simp [MAX_FAILURES])
      (by simpa [MAX_FAILURES] using h)

/-- C9 witness: a success followed by five straight failures stops the
loop. -/
theorem capture_loop_failure_ceiling_witness :
    (capture_loop [true, false, false, false, false, false] 0).2 = true :=
  (capture_loop_failure_ceiling.2.2 [true, false, false, false, false, false]).mpr
    (by decide)

/-- One best-so-far update keeps the score at the pointwise maximum. -/
lemma bgStep_snd (acc : Option String × ℚ) (p : String × ℚ) :
    (bgStep acc p).2 = max acc.2 p.2 := by
  unfold bgStep
  split_ifs with h
  · exact (max_eq_right (le_of_lt h)).symm
  · exact (max_eq_left (not_lt.mp h)).symm

/-- The inner template loop equals a `bgStep` fold over the successful
(name, score) pairs of that entry. -/
lemma inner_foldl_eq {α β : Type} (sc : β → α → Option ℚ) (tg : β)
    (nome : String) (ts : List α) :
    ∀ acc, ts.foldl (fun a t =>
        match sc tg t with
        | none => a
        | some v => bgStep a (nome, v)) acc =
      (ts.filterMap (fun t => (sc tg t).map (fun v => (nome, v)))).foldl bgStep acc := by
  induction ts with
  | nil => intro acc; rfl
  | cons t ts ih =>
    intro acc
    rw [List.foldl_cons, List.filterMap_cons]
    cases h : sc tg t with
    | none => simpa [h] using ih _
    | some v => simpa [h] using ih _

/-- The nested scan equals a `bgStep` fold over the flattened successful
scores, in scan order. -/
lemma scanTemplates_eq_flat {α β : Type} (sc : β → α → Option ℚ) (tg : β)
    (cache : List (String × List α)) :
    scanTemplates sc tg cache = (flatScores sc tg cache).foldl bgStep (none, 0) := by
  have haux : ∀ (cs : List (String × List α)) (acc : Option String × ℚ),
      cs.foldl (fun acc entry =>
        entry.2.foldl (fun a t =>
          match sc tg t with
          | none => a
          | some v => bgStep a (entry.1, v)) acc) acc =
      (flatScores sc tg cs).foldl bgStep acc := by
    intro cs
    induction cs with
    | nil => intro acc; rfl
    | cons e cs ih =>
      intro acc
      rw [List.foldl_cons]
      unfold flatScores
      rw [List.map_cons, List.flatten_cons, List.foldl_append]
      rw [inner_foldl_eq sc tg e.1 e.2 acc]
      exact ih _
  exact haux cache _

/-- The score of the fold is the running maximum of the scores, started at
the accumulator's score. -/
lemma foldl_bgStep_snd (l : List (String × ℚ)) :
    ∀ acc, (l.foldl bgStep acc).2 = l.foldl (fun a p => max a p.2) acc.2 := by
  induction l with
  | nil => intro acc; rfl
  | cons p t ih =>
    intro acc
    rw [List.foldl_cons, List.foldl_cons, ih, bgStep_snd]

/-- The fold either keeps the accumulator or returns the (name, score) of
some scanned pair. -/
lemma foldl_bgStep_cases (l : List (String × ℚ)) :
    ∀ acc, l.foldl bgStep acc = acc ∨
      ∃ p ∈ l, l.foldl bgStep acc = (some p.1, p.2) := by
  induction l with
  | nil => intro acc; exact Or.inl rfl
  | cons p t ih =>
    intro acc
    rw [List.foldl_cons]
    rcases ih (bgStep acc p) with h | ⟨q, hq, h⟩
    · by_cases hlt : acc.2 < p.2
      · right
        refine ⟨p, List.mem_cons_self p t, ?_⟩
        rw [h]
        unfold bgStep
        rw [if_pos hlt]
      · left
        rw [h]
        unfold bgStep
        rw [if_neg hlt]
    · exact Or.inr ⟨q, List.mem_cons_of_mem p hq, h⟩

/-- Starting from a non-negative score whose name is only set when the score
is positive, the fold keeps that invariant: a named result has a strictly
positive score. -/
lemma foldl_bgStep_pos (l : List (String × ℚ)) :
    ∀ acc, 0 ≤ acc.2 → (acc.1 ≠ none → 0 < acc.2) →
      (0 ≤ (l.foldl bgStep acc).2 ∧
        ((l.foldl bgStep acc).1 ≠ none → 0 < (l.foldl bgStep acc).2)) := by
  induction l with
  | nil => intro acc h0 h1; exact ⟨h0, h1⟩
  | cons p t ih =>
    intro acc h0 h1
    rw [List.foldl_cons]
    unfold bgStep
    split_ifs with hlt
    · exact ih _ (le_of_lt (lt_of_le_of_lt h0 hlt))
        (fun _ => lt_of_le_of_lt h0 hlt)
    · exact ih _ h0 h1

/-- The accumulator score is a lower bound of the running maximum. -/
lemma le_foldl_max (l : List (String × ℚ)) :
    ∀ b : ℚ, b ≤ l.foldl (fun a p => max a p.2) b := by
  induction l with
  | nil => intro b; exact le_refl b
  | cons p t ih =>
    intro b
    rw [List.foldl_cons]
    exact le_trans (le_max_left b p.2) (ih _)

/-- Every scanned score is bounded by the running maximum. -/
lemma mem_le_foldl_max (l : List (String × ℚ)) (q : String × ℚ) :
    ∀ b : ℚ, q ∈ l → q.2 ≤ l.foldl (fun a p => max a p.2) b := by
  induction l with
  | nil => intro b hb; exact absurd hb (List.not_mem_nil q)
  | cons p t ih =>
    intro b hb
    rw [List.foldl_cons]
    rcases List.mem_cons.mp hb with h | h
    · rw [h]
      exact le_trans (le_max_right b p.2) (le_foldl_max t _)
    · exact ih _ h

/-- The running maximum of scores all below `v`, started below `v`, stays
below `v`. -/
lemma foldl_max_lt (l : List (String × ℚ)) (v : ℚ) :
    ∀ b : ℚ, b < v → (∀ p ∈ l, p.2 < v) →
      l.foldl (fun a p => max a p.2) b < v := by
  induction l with
  | nil => intro b hb _; exact hb
  | cons p t ih =>
    intro b hb hall
    rw [List.foldl_cons]
    exact ih _ (max_lt hb (hall p (List.mem_cons_self p t)))
      (fun q hq => hall q (List.mem_cons_of_mem p hq))

/-- When no scanned score beats the accumulator, the fold is the identity. -/
lemma foldl_bgStep_no_update (l : List (String × ℚ)) :
    ∀ acc, (∀ p ∈ l, p.2 ≤ acc.2) → l.foldl bgStep acc = acc := by
  induction l with
  | nil => intro acc _; rfl
  | cons p t ih =>
    intro acc hall
    rw [List.foldl_cons]
    have hstep : bgStep acc p = acc := by
      unfold bgStep
      rw [if_neg (not_lt.mpr (hall p (List.mem_cons_self p t)))]
    rw [hstep]
    exact ih _ (fun q hq => hall q (List.mem_cons_of_mem p hq))

/-- Ties keep the first discovered maximum: if every score before the pair
`(n, v)` is strictly below `v`, the accumulator is below `v`, and every
score after is at most `v`, the fold returns `(some n, v)`. -/
lemma foldl_bgStep_first_max (l₁ l₂ : List (String × ℚ)) (n : String) (v : ℚ)
    (g : Option String) (b : ℚ) (hb : b < v)
    (h₁ : ∀ p ∈ l₁, p.2 < v) (h₂ : ∀ p ∈ l₂, p.2 ≤ v) :
    (l₁ ++ (n, v) :: l₂).foldl bgStep (g, b) = (some n, v) := by
  have key : (l₁ ++ (n, v) :: l₂).foldl bgStep (g, b)
      = l₂.foldl bgStep (bgStep (l₁.foldl bgStep (g, b)) (n, v)) := by
    rw [List.foldl_append, List.foldl_cons]
  have hacc : (l₁.foldl bgStep (g, b)).2 < v := by
    rw [foldl_bgStep_snd]
    exact foldl_max_lt l₁ v b hb h₁
  have hstep : bgStep (l₁.foldl bgStep (g, b)) (n, v) = (some n, v) := by
    have hdef : bgStep (l₁.foldl bgStep (g, b)) (n, v)
        = if (l₁.foldl bgStep (g, b)).2 < v
          then (some n, v) else l₁.foldl bgStep (g, b) := rfl
    rw [hdef, if_pos hacc]
  rw [key, hstep]
  exact foldl_bgStep_no_update l₂ (some n, v) h₂

/-- Every flattened (name, score) pair carries the name of some library
entry. -/
lemma flatScores_name_mem {α β : Type} (sc : β → α → Option ℚ) (tg : β)
    (cache : List (String × List α)) (p : String × ℚ)
    (hp : p ∈ flatScores sc tg cache) : ∃ e ∈ cache, p.1 = e.1 := by
  unfold flatScores at hp
  rcases List.mem_flatten.mp hp with ⟨l, hl, hpl⟩
  rcases List.mem_map.mp hl with ⟨e, he, hle⟩
  refine ⟨e, he, ?_⟩
  rw [← hle] at hpl
  rcases List.mem_filterMap.mp hpl with ⟨t, _, hmap⟩
  cases h : sc tg t with
  | none => rw [h] at hmap; exact absurd hmap (by simp)
  | some v =>
    rw [h] at hmap
    have : (e.1, v) = p := by simpa using hmap
    rw [← this]

/-- A list with a visible middle element is not empty. -/
lemma isEmpty_append_cons_false {γ : Type} (c₁ : List γ) (d : γ) (c₂ : List γ) :
    (c₁ ++ d :: c₂).isEmpty = false := by
  cases c₁ with
  | nil => rfl
  | cons a t => rfl

/-- C7 corrected: `get_best_guess` returns (none, 0.0) on an empty reference
library; whenever the candidate's preprocessing succeeds it never raises,
and a comparison failure against one stored reference is skipped silently —
the scan over the remaining references gives the very same answer as if the
failing reference were absent.  (A candidate whose preprocessing fails does
raise when the library is non-empty; see the counterexample.) -/
theorem get_best_guess_failure_semantics {α β : Type} (pre : α → Option β)
    (sc : β → α → Option ℚ) :
    (∀ target : α,
      get_best_guess pre sc ([] : List (String × List α)) target = .ok (none, 0)) ∧
    (∀ (c₁ c₂ : List (String × List α)) (nome : String) (ts₁ ts₂ : List α)
        (t target : α) (tg : β), pre target = some tg → sc tg t = none →
      get_best_guess pre sc (c₁ ++ (nome, ts₁ ++ t :: ts₂) :: c₂) target =
        get_best_guess pre sc (c₁ ++ (nome, ts₁ ++ ts₂) :: c₂) target) ∧
    (∀ (cache : List (String × List α)) (target : α) (tg : β),
      pre target = some tg →
      ∃ r, get_best_guess pre sc cache target = .ok r) := by
  refine ⟨fun target => rfl, ?_, ?_⟩
  · intro c₁ c₂ nome ts₁ ts₂ t target tg hpre hsc
    have hflat : flatScores sc tg (c₁ ++ (nome, ts₁ ++ t :: ts₂) :: c₂) =
        flatScores sc tg (c₁ ++ (nome, ts₁ ++ ts₂) :: c₂) := by
      unfold flatScores
      rw [List.map_append, List.map_append, List.map_cons, List.map_cons]
      simp only [List.filterMap_append, List.filterMap_cons, hsc, Option.map_none']
    have hscan : scanTemplates sc tg (c₁ ++ (nome, ts₁ ++ t :: ts₂) :: c₂) =
        scanTemplates sc tg (c₁ ++ (nome, ts₁ ++ ts₂) :: c₂) := by
      rw [scanTemplates_eq_flat, scanTemplates_eq_flat, hflat]
    simp only [get_best_guess, isEmpty_append_cons_false, hpre, hscan]
  · intro cache target tg hpre
    cases cache with
    | nil => exact ⟨(none, 0), rfl⟩
    | cons e cs =>
      refine ⟨scanTemplates sc tg (e :: cs), ?_⟩
      simp only [get_best_guess, hpre]
      rfl

/-- C7 counterexample to "it never raises": on a non-empty library, a
candidate whose preprocessing fails (the conversion of `target_img`
happens outside the per-reference `try`) makes `get_best_guess` raise,
modelled as `Except.error`. -/
theorem get_best_guess_raises_counterexample :
    get_best_guess preFailN scOneN cacheA1 0 = .error () ∧
      cacheA1 ≠ [] := by
  exact ⟨rfl, by simp [cacheA1]⟩

/-- C7 witness: a library entry with three reference images, the middle
comparison failing, scores exactly like the library without that reference;
and the empty library returns (none, 0.0). -/
theorem get_best_guess_failure_semantics_witness :
    get_best_guess preOkN scSkip1N cacheSkip 0 =
      get_best_guess preOkN scSkip1N cacheNoSkip 0 ∧
    get_best_guess preOkN scOneN ([] : List (String × List Nat)) 0 =
      .ok (none, 0) :=
  ⟨(get_best_guess_failure_semantics preOkN scSkip1N).2.1 [] [] "A" [0] [2] 1 0 ()
      rfl rfl,
   (get_best_guess_failure_semantics preOkN scOneN).1 0⟩

/-- C8 corrected: on a successfully preprocessed candidate, the returned
score is the maximum of 0.0 and all successful comparison scores; a returned
name is the name of a scanned pair achieving that (strictly positive) score;
a strictly positive score always carries a name; and ties keep the first
discovered maximum: the name returned is that of the first scanned pair
attaining the maximal score.  (When no comparison scores strictly above 0.0
the name is dropped — see the counterexample.) -/
theorem get_best_guess_argmax {α β : Type} (pre : α → Option β)
    (sc : β → α → Option ℚ) (cache : List (String × List α)) (target : α)
    (tg : β) (g : Option String) (s : ℚ)
    (hpre : pre target = some tg)
    (hr : get_best_guess pre sc cache target = .ok (g, s)) :
    (s = (flatScores sc tg cache).foldl (fun a p => max a p.2) 0) ∧
    (∀ n, g = some n → (n, s) ∈ flatScores sc tg cache ∧ 0 < s) ∧
    (0 < s → g ≠ none) ∧
    (∀ (l₁ l₂ : List (String × ℚ)) (n : String) (v : ℚ),
      flatScores sc tg cache = l₁ ++ (n, v) :: l₂ →
      (∀ p ∈ l₁, p.2 < v) → 0 < v → v = s → g = some n) := by
  have hfold : (flatScores sc tg cache).foldl bgStep (none, 0) = (g, s) := by
    cases cache with
    | nil =>
      have : (g, s) = ((none : Option String), (0 : ℚ)) := by
        have := hr
        unfold get_best_guess at this
        simp only [List.isEmpty_nil, if_true] at this
        exact (Except.ok.injEq _ _).mp this.symm
      rw [this]
      rfl
    | cons e cs =>
      have hscan : scanTemplates sc tg (e :: cs) = (g, s) := by
        have := hr
        unfold get_best_guess at this
        simp only [hpre] at this
        exact (Except.ok.injEq _ _).mp this
      rw [← scanTemplates_eq_flat, hscan]
  have hsnd : s = (flatScores sc tg cache).foldl (fun a p => max a p.2) 0 := by
    have := foldl_bgStep_snd (flatScores sc tg cache) (none, 0)
    rw [hfold] at this
    exact this
  refine ⟨hsnd, ?_, ?_, ?_⟩
  · intro n hgn
    rcases foldl_bgStep_cases (flatScores sc tg cache) (none, 0) with h | ⟨p, hp, h⟩
    · rw [hfold] at h
      have : g = none := congrArg Prod.fst h
      rw [this] at hgn
      exact absurd hgn (by simp)
    · rw [hfold] at h
      have hg : g = some p.1 := congrArg Prod.fst h
      have hs : s = p.2 := congrArg Prod.snd h
      have hpos := (foldl_bgStep_pos (flatScores sc tg cache) (none, 0)
        (le_refl 0) (fun hc => absurd rfl hc)).2
      rw [hfold] at hpos
      have h0s : 0 < s := hpos (by rw [hg]; simp)
      have hn : n = p.1 := by
        rw [hg] at hgn
        exact (Option.some.injEq _ _).mp hgn.symm
      refine ⟨?_, h0s⟩
      have : (n, s) = p := by rw [hn, hs]
      rw [this]
      exact hp
  · intro h0s hgnone
    rcases foldl_bgStep_cases (flatScores sc tg cache) (none, 0) with h | ⟨p, hp, h⟩
    · rw [hfold] at h
      have : s = 0 := congrArg Prod.snd h
      rw [this] at h0s
      exact absurd h0s (lt_irrefl 0)
    · rw [hfold] at h
      have : g = some p.1 := congrArg Prod.fst h
      rw [hgnone] at this
      exact absurd this (by simp)
  · intro l₁ l₂ n v hflat h₁ hv hvs
    have h₂ : ∀ p ∈ l₂, p.2 ≤ v := by
      intro p hp
      have hmem : p ∈ flatScores sc tg cache := by
        rw [hflat]
        exact List.mem_append_right l₁ (List.mem_cons_of_mem (n, v) hp)
      have := mem_le_foldl_max (flatScores sc tg cache) p 0 hmem
      rw [← hsnd] at this
      rw [hvs]
      exact this
    have := foldl_bgStep_first_max l₁ l₂ n v none 0 hv h₁ h₂
    rw [← hflat, hfold] at this
    exact congrArg Prod.fst this

/-- C8 counterexample: with one stored reference "A" whose (successful)
comparison scores 0.0, the single highest-scoring pair over the stored
references is ("A", 0.0), yet `get_best_guess` returns (None, 0.0): the
name of the highest-scoring reference is not returned when the maximal
score is not strictly positive. -/
theorem get_best_guess_zero_score_counterexample :
    get_best_guess preOkN scZeroN cacheA1 0 = .ok (none, 0) ∧
      flatScores scZeroN () cacheA1 = [("A", 0)] := by
  exact ⟨rfl, rfl⟩

/-- C8 witness: with two references "A" and "B" both scoring 1.0, the
returned score is the running maximum and the tie goes to "A", the first in
scan order. -/
theorem get_best_guess_argmax_witness :
    ((1 : ℚ) = (flatScores scOneN () cacheAB).foldl (fun a p => max a p.2) 0) ∧
      (some "A" : Option String) = some "A" :=
  ⟨(get_best_guess_argmax preOkN scOneN cacheAB 0 () (some "A") 1 rfl rfl).1,
   (get_best_guess_argmax preOkN scOneN cacheAB 0 () (some "A") 1 rfl rfl).2.2.2
     [] [("B", 1)] "A" 1 rfl (by simp) (by norm_num) rfl⟩

/-- C5: for a best guess produced by `get_best_guess` over a library of
non-empty card names, a score at least 0.75 is accepted automatically —
no operator prompt, the guess is recorded as the slot identity, and no new
reference image is stored — while a score below 0.75 always invokes the
operator prompt. -/
theorem auto_accept_high_confidence {α β : Type} (pre : α → Option β)
    (sc : β → α → Option ℚ) (cache : List (String × List α)) (target : α)
    (raw : String) (st : SlotReview α) (g : Option String) (s : ℚ)
    (hnames : ∀ e ∈ cache, e.1 ≠ "")
    (hr : get_best_guess pre sc cache target = .ok (g, s)) :
    (CONFIRMATION_THRESHOLD ≤ s →
      handle_new_card g s target raw st =
        (false, { identity := g, savedTemplates := st.savedTemplates })) ∧
    (s < CONFIRMATION_THRESHOLD → (handle_new_card g s target raw st).1 = true) := by
  constructor
  · intro hle
    have h0s : 0 < s :=
      lt_of_lt_of_le (by norm_num [CONFIRMATION_THRESHOLD]) hle
    have htruthy : truthyName g = true := by
      cases cache with
      | nil =>
        have : (g, s) = ((none : Option String), (0 : ℚ)) := by
          have := hr
          unfold get_best_guess at this
          simp only [List.isEmpty_nil, if_true] at this
          exact (Except.ok.injEq _ _).mp this.symm
        have hs0 : s = 0 := congrArg Prod.snd this
        rw [hs0] at h0s
        exact absurd h0s (lt_irrefl 0)
      | cons e cs =>
        cases hp : pre target with
        | none =>
          have := hr
          unfold get_best_guess at this
          simp only [hp] at this
          exact absurd this (by simp)
        | some tg =>
          have hscan : scanTemplates sc tg (e :: cs) = (g, s) := by
            have := hr
            unfold get_best_guess at this
            simp only [hp] at this
            exact (Except.ok.injEq _ _).mp this
          have hfold : (flatScores sc tg (e :: cs)).foldl bgStep (none, 0) = (g, s) := by
            rw [← scanTemplates_eq_flat, hscan]
          rcases foldl_bgStep_cases (flatScores sc tg (e :: cs)) (none, 0) with h | ⟨p, hpm, h⟩
          · rw [hfold] at h
            have : s = 0 := congrArg Prod.snd h
            rw [this] at h0s
            exact absurd h0s (lt_irrefl 0)
          · rw [hfold] at h
            have hg : g = some p.1 := congrArg Prod.fst h
            rcases flatScores_name_mem sc tg (e :: cs) p hpm with ⟨en, hen, hpe⟩
            have hne : p.1 ≠ "" := by
              rw [hpe]
              exact hnames en hen
            rw [hg]
            simp [truthyName, hne]
    unfold handle_new_card
    rw [if_pos ⟨hle, htruthy⟩]
  · intro hlt
    unfold handle_new_card
    rw [if_neg]
    rintro ⟨hle, _⟩
    exact absurd hle (not_le.mpr hlt)

/-- C5 witness: guess "A" at score 1.0 from a one-card library is accepted
automatically: no prompt, identity recorded, nothing persisted. -/
theorem auto_accept_high_confidence_witness :
    handle_new_card (some "A") (1 : ℚ) (0 : Nat) ""
        { identity := none, savedTemplates := [] } =
      (false, { identity := some "A", savedTemplates := [] }) :=
  (auto_accept_high_confidence preOkN scOneN cacheA1 0 ""
      { identity := none, savedTemplates := [] } (some "A") 1
      (by simp [cacheA1]) rfl).1 (by norm_num [CONFIRMATION_THRESHOLD])

/-- `dropWhile` removes a (possibly empty) block from the front. -/
lemma dropWhile_front_exists (p : Char → Bool) :
    ∀ m : List Char, ∃ s, s ++ m.dropWhile p = m := by
  intro m
  induction m with
  | nil => exact ⟨[], rfl⟩
  | cons c cs ih =>
    by_cases h : p c = true
    · rcases ih with ⟨s, hs⟩
      exact ⟨c :: s, by rw [List.dropWhile_cons, if_pos h, List.cons_append, hs]⟩
    · exact ⟨[], by rw [List.dropWhile_cons, if_neg h]; rfl⟩

/-- The head surviving a `dropWhile` does not satisfy the predicate. -/
lemma dropWhile_head_not (p : Char → Bool) :
    ∀ (l : List Char) (a : Char) (t : List Char),
      l.dropWhile p = a :: t → p a = false := by
  intro l
  induction l with
  | nil => intro a t h; exact absurd h (by simp)
  | cons c cs ih =>
    intro a t h
    cases hpc : p c with
    | true =>
      rw [List.dropWhile_cons, if_pos hpc] at h
      exact ih a t h
    | false =>
      rw [List.dropWhile_cons, if_neg (by simp [hpc])] at h
      injection h with h1 _
      rw [← h1]
      exact hpc

/-- Stripping the tail of a front-stripped list leaves a list that is still
front-stripped. -/
lemma stripEnd_dropWhile_self (p : Char → Bool) (A : List Char)
    (hA : A.dropWhile p = A) :
    ((A.reverse.dropWhile p).reverse).dropWhile p =
      (A.reverse.dropWhile p).reverse := by
  obtain ⟨s, hs⟩ := dropWhile_front_exists p A.reverse
  have hBA : (A.reverse.dropWhile p).reverse ++ s.reverse = A := by
    have h := congrArg List.reverse hs
    simpa [List.reverse_append] using h
  cases hD : (A.reverse.dropWhile p).reverse with
  | nil => rfl
  | cons b bs =>
    have hAeq : A = b :: (bs ++ s.reverse) := by
      rw [← hBA, hD, List.cons_append]
    have hpb : p b = false :=
      dropWhile_head_not p A b (bs ++ s.reverse) (by rw [hA, hAeq])
    simp [List.dropWhile_cons, hpb]

/-- Python's `str.strip()` is idempotent. -/
lemma pyStrip_idem (s : String) : pyStrip (pyStrip s) = pyStrip s := by
  have h1 : (((s.data.dropWhile Char.isWhitespace).reverse.dropWhile
        Char.isWhitespace).reverse).dropWhile Char.isWhitespace =
      ((s.data.dropWhile Char.isWhitespace).reverse.dropWhile
        Char.isWhitespace).reverse :=
    stripEnd_dropWhile_self Char.isWhitespace (s.data.dropWhile Char.isWhitespace)
      (List.dropWhile_idempotent Char.isWhitespace s.data)
  show String.mk ((((((s.data.dropWhile Char.isWhitespace).reverse.dropWhile
      Char.isWhitespace).reverse).dropWhile Char.isWhitespace).reverse.dropWhile
      Char.isWhitespace).reverse) = pyStrip s
  rw [h1, List.reverse_reverse, List.dropWhile_idempotent]
  rfl

/-- C6: in the review prompt, empty operator input confirms the best guess
and non-empty input, trimmed and title-cased, overrides it; a non-empty
resolved name is recorded as the slot identity and the candidate image is
persisted under it; when the guess was none and no input is given the event
is dropped: no identity recorded, no reference persisted. -/
theorem review_prompt_resolution {α : Type} (best_guess : Option String)
    (rawInput : String) (slot_img : α) (st : SlotReview α) :
    (pyStrip rawInput = "" → resolveReviewName best_guess rawInput = best_guess) ∧
    (pyStrip rawInput ≠ "" →
      resolveReviewName best_guess rawInput = some (pyTitle (pyStrip rawInput))) ∧
    (∀ n, resolveReviewName best_guess rawInput = some n → n ≠ "" →
      promptReview best_guess slot_img rawInput st =
        { identity := some n,
          savedTemplates := st.savedTemplates ++ [(n, slot_img)] }) ∧
    (best_guess = none → pyStrip rawInput = "" →
      promptReview best_guess slot_img rawInput st = st) := by
  refine ⟨?_, ?_, ?_, ?_⟩
  · intro h
    simp [resolveReviewName, h]
  · intro h
    unfold resolveReviewName
    rw [if_pos h, pyStrip_idem]
  · intro n hres hn
    simp [promptReview, hres, hn]
  · intro hg hraw
    have hres : resolveReviewName best_guess rawInput = none := by
      simp [resolveReviewName, hraw, hg]
    unfold promptReview
    rw [hres]

/-- C6 witness: empty input confirms the guess "Witch"; input " hog rider "
with no guess resolves to "Hog Rider", which is recorded and persisted; and
whitespace-only input with no guess drops the event. -/
theorem review_prompt_resolution_witness :
    resolveReviewName (some "Witch") "" = some "Witch" ∧
    resolveReviewName none " hog rider " = some "Hog Rider" ∧
    promptReview none (0 : Nat) " hog rider "
        { identity := none, savedTemplates := [] } =
      { identity := some "Hog Rider", savedTemplates := [("Hog Rider", 0)] } ∧
    promptReview none (0 : Nat) "   "
        { identity := none, savedTemplates := [] } =
      { identity := none, savedTemplates := [] } :=
  ⟨(review_prompt_resolution (some "Witch") "" (0 : Nat)
      { identity := none, savedTemplates := [] }).1 rfl,
   ((review_prompt_resolution none " hog rider " (0 : Nat)
      { identity := none, savedTemplates := [] }).2.1 (by decide)).trans (by decide),
   (review_prompt_resolution none " hog rider " (0 : Nat)
      { identity := none, savedTemplates := [] }).2.2.1 "Hog Rider" (by decide)
      (by decide),
   (review_prompt_resolution none "   " (0 : Nat)
      { identity := none, savedTemplates := [] }).2.2.2 rfl (by decide)⟩

end ClashRoyale
